import Mathlib

/-!
Verification of the Serena MCP bridge module (`src/serena/mcp.py`).

The module adapts agent capability objects ("tools") into MCP procedure
descriptors, keeps a process-wide registry mapping project-configuration
file paths to lazily constructed `SerenaAgent` instances, and wraps the
protocol server's run loop so that every registered agent's language-server
backend is stopped at shutdown.

The embedding is a shallow one: Python objects become Lean structures,
the global mutable registry becomes an explicit `MCPState` threaded through
the operations, and side effects (log records, backend start/stop calls,
the usage message) are recorded in an event trace.  Python exceptions are
modelled with `Except`; `sys.exit` with an explicit outcome constructor.
-/

namespace Serena

/-- A named-argument mapping (Python `**kwargs`), with opaque argument values. -/
abbrev Kwargs := List (String × String)

/-- The value of a Python object's `apply` attribute, when the attribute is
present: either the value `None`, or an actual value carrying whether it is
callable, its docstring (`__doc__`, which may be absent), and the
JSON-schema-shaped description of its call signature. -/
inductive ApplyVal where
  | pynone
  | val (callable : Bool) (doc : Option String) (sig : String)
deriving DecidableEq, Repr

/-- A capability object of the agent (`serena.agent.Tool`): a name
(`get_name()`), the `apply` attribute (`none` models an absent attribute),
and the behaviour of executing the capability on a named-argument mapping
(`Except.error` models a raised exception, carrying its description). -/
structure Tool where
  name : String
  applyAttr : Option ApplyVal
  run : Kwargs → Except String String

/-- Modelled from the spec: `Tool.apply_ex` of the agent collaborator
(`serena.agent`, not part of this module's source) executes the capability;
with `catch_exceptions` set it catches all exceptions raised during
execution and converts each into a descriptive string result rather than
re-raising, so that the call always returns a string. -/
def Tool.apply_ex (t : Tool) (log_call : Bool) (catch_exceptions : Bool)
    (kwargs : Kwargs) : Except String String :=
  match t.run kwargs with
  | Except.ok s => Except.ok s
  | Except.error e =>
      if catch_exceptions then Except.ok ("Error executing tool: " ++ e)
      else Except.error e

/-- Python `getattr(tool, "apply")`: raises `AttributeError` when the
attribute is absent, otherwise returns its value (possibly `None`). -/
def getattrApply (t : Tool) : Except String ApplyVal :=
  match t.applyAttr with
  | none => Except.error ("AttributeError: apply")
  | some v => Except.ok v

/-- The result of the schema-derivation collaborator `func_metadata`:
an argument model whose `model_json_schema()` is the parameter schema. -/
structure FuncMetadata where
  schema : String
deriving DecidableEq, Repr

/-- Modelled from the spec: the external schema-derivation collaborator
`func_metadata` (from `mcp.server.fastmcp.utilities.func_metadata`, not part
of this module's source) is "a function taking a callable and returning
{an argument model, a JSON-schema-shaped parameter description}"; applied
to a non-callable value it raises. -/
def func_metadata (callable : Bool) (sig : String) : Except String FuncMetadata :=
  if callable then Except.ok ⟨sig⟩
  else Except.error "TypeError: value is not callable"

/-- An MCP procedure descriptor (`mcp.server.fastmcp.tools.base.Tool`),
restricted to the fields this module sets. -/
structure MCPTool where
  fn : Kwargs → Except String String
  name : String
  description : String
  parameters : String
  is_async : Bool

/-- `make_tool` of `serena/mcp.py`: builds an MCP procedure descriptor from
one capability object.  The invocation thunk `execute_fn` delegates to
`apply_ex` with `log_call=True, catch_exceptions=True`.  An `Except.error`
result models an exception raised during construction. -/
def make_tool (tool : Tool) : Except String MCPTool := do
  let func_name := tool.name
  let apply_fn ← getattrApply tool
  match apply_fn with
  | ApplyVal.pynone =>
      Except.error ("ValueError: Tool does not have an apply method")
  | ApplyVal.val callable doc sig =>
      let func_doc := doc.getD ""
      let is_async := false
      let func_arg_metadata ← func_metadata callable sig
      let parameters := func_arg_metadata.schema
      let execute_fn : Kwargs → Except String String :=
        fun kwargs => tool.apply_ex true true kwargs
      Except.ok { fn := execute_fn, name := func_name, description := func_doc,
                  parameters := parameters, is_async := is_async }

/-- The spec's side of the builder's error condition, in its own words:
a capability has a usable execution entrypoint when the expected execution
method is present and callable (an absent attribute, the value `None`, and
a non-callable value all lack one). -/
def usableExecutionEntrypoint (t : Tool) : Bool :=
  match t.applyAttr with
  | some (ApplyVal.val callable _ _) => callable
  | _ => false

/-- Observable side effects of the module, recorded as a trace:
informational log records of the registry, backend start/stop calls of
agents (identified by their allocation id), and the usage message printed
to the diagnostic stream. -/
inductive Event where
  | logCreate (path : String)
  | logReuse (path : String)
  | backendStart (agentId : Nat)
  | backendStop (agentId : Nat)
  | usagePrinted
deriving DecidableEq, Repr

/-- The process-wide mutable state of the module: `_SERENA_AGENT_REGISTRY`
(an insertion-ordered mapping from project file paths to agent handles,
modelled as an association list), a counter allocating fresh agent object
identities (reference equality of handles is equality of these ids), and
the accumulated event trace. -/
structure MCPState where
  registry : List (String × Nat)
  nextId : Nat
  events : List Event
deriving DecidableEq, Repr

/-- The state at process start: empty registry, no events. -/
def initialState : MCPState := ⟨[], 0, []⟩

/-- Lookup in an insertion-ordered string-keyed mapping (Python `d[k]` /
`k in d`, returning the value of the unique matching key, if any). -/
def lookupStr {α : Type} (d : List (String × α)) (k : String) : Option α :=
  match d with
  | [] => none
  | (a, v) :: t => if a = k then some v else lookupStr t k

/-- `_get_create_serena_agent` of `serena/mcp.py`: looks the path up in the
registry; on a miss it logs, constructs a new agent — `SerenaAgent(path,
start_language_server=True)` starts the language-server backend, an effect
modelled from the spec since the agent collaborator is not part of this
module's source — and inserts it; on a hit it logs and returns the existing
handle. -/
def _get_create_serena_agent (path : String) (st : MCPState) : Nat × MCPState :=
  match lookupStr st.registry path with
  | some a => (a, { st with events := st.events ++ [Event.logReuse path] })
  | none =>
      let a := st.nextId
      (a, { registry := st.registry ++ [(path, a)],
            nextId := st.nextId + 1,
            events := st.events ++ [Event.logCreate path, Event.backendStart a] })

/-- `n` sequential calls of `_get_create_serena_agent` with the same path,
returning the handle of the last call and the final state (`n = 0` returns
a dummy handle and the unchanged state). -/
def callRepeatedly (path : String) : Nat → MCPState → Nat × MCPState
  | 0, st => (0, st)
  | 1, st => _get_create_serena_agent path st
  | Nat.succ (Nat.succ n), st =>
      callRepeatedly path (Nat.succ n) (_get_create_serena_agent path st).2

/-- A sequence of registry lookups (each possibly creating an agent),
as performed by callers after the server began serving. -/
def registerAll (paths : List String) (st : MCPState) : MCPState :=
  paths.foldl (fun s p => (_get_create_serena_agent p s).2) st

/-- The `finally` block of `server_lifespan`:
`for agent in _SERENA_AGENT_REGISTRY.values(): agent.language_server.stop()`.
`stopFails a = some e` means agent `a`'s backend `stop()` raises `e`
(the behaviour of `stop()` itself is modelled from the spec, the agent
collaborator being outside this module's source); a raised exception
propagates out of the `for` loop, abandoning the remaining iterations.
Returns the state as left behind together with the propagated exception,
if any. -/
def stopLoop (stopFails : Nat → Option String) :
    List Nat → MCPState → MCPState × Option String
  | [], st => (st, none)
  | a :: rest, st =>
      match stopFails a with
      | some e => (st, some e)
      | none =>
          stopLoop stopFails rest { st with events := st.events ++ [Event.backendStop a] }

/-- The shutdown sweep of `server_lifespan`: iterates the values of the
registry as it is at shutdown time and stops each agent's backend. -/
def server_lifespan_shutdown (stopFails : Nat → Option String) (st : MCPState) :
    MCPState × Option String :=
  stopLoop stopFails (st.registry.map Prod.snd) st

/-- Python `dict` assignment `d[k] = v`: overwrites the value of an existing
key in place, otherwise appends the new binding. -/
def dictInsert {α : Type} (d : List (String × α)) (k : String) (v : α) :
    List (String × α) :=
  if (lookupStr d k).isSome then
    d.map (fun p => if p.1 = k then (k, v) else p)
  else d ++ [(k, v)]

/-- The bind loop of `create_mcp_server`:
`for tool in agent.tools.values(): mcp._tool_manager._tools[tool.get_name()] = make_tool(tool)`.
An exception raised by `make_tool` propagates, abandoning the loop. -/
def bindTools : List Tool → List (String × MCPTool) → Except String (List (String × MCPTool))
  | [], table => Except.ok table
  | t :: rest, table =>
      match make_tool t with
      | Except.error e => Except.error e
      | Except.ok mt => bindTools rest (dictInsert table t.name mt)

/-- The outcome of running a Python entry point: normal return,
`sys.exit(code)`, or an uncaught exception. -/
inductive PyOutcome (α : Type) where
  | ok (a : α)
  | exit (code : Nat)
  | exn (msg : String)

/-- The FastMCP server as this module observes it: its tool manager's
procedure table. -/
structure FastMCPServer where
  tools : List (String × MCPTool)

/-- `create_mcp_server` of `serena/mcp.py`: `argv` is `sys.argv[1:]` and
`agentTools a` gives `agent.tools.values()` for the agent handle `a` (the
tool set of a constructed agent belongs to the agent collaborator).  With
an argument count other than one it prints the usage message to stderr and
exits with status 1; otherwise it resolves the agent for the given path and
binds each of its capabilities into the server's procedure table. -/
def create_mcp_server (agentTools : Nat → List Tool) (argv : List String)
    (st : MCPState) : PyOutcome FastMCPServer × MCPState :=
  match argv with
  | [project_file_path] =>
      let (agent, st1) := _get_create_serena_agent project_file_path st
      match bindTools (agentTools agent) [] with
      | Except.error e => (PyOutcome.exn e, st1)
      | Except.ok table => (PyOutcome.ok ⟨table⟩, st1)
  | _ => (PyOutcome.exit 1, { st with events := st.events ++ [Event.usagePrinted] })

/-- Well-formedness of the module state, an invariant of all reachable
states: registry keys are distinct, registered handles are distinct and
below the allocation counter, and each registered handle's backend was
started exactly once (no other handle's ever was). -/
def WF (st : MCPState) : Prop :=
  (st.registry.map Prod.fst).Nodup ∧
  (st.registry.map Prod.snd).Nodup ∧
  (∀ p a, (p, a) ∈ st.registry → a < st.nextId) ∧
  (∀ a, st.events.count (Event.backendStart a) =
    if a ∈ st.registry.map Prod.snd then 1 else 0)

/-! ### Lemmas about the string-keyed mapping -/

theorem lookupStr_nil {α : Type} (k : String) :
    lookupStr ([] : List (String × α)) k = none := rfl

theorem lookupStr_append_of_none {α : Type} {d₁ : List (String × α)}
    (d₂ : List (String × α)) {k : String} (h : lookupStr d₁ k = none) :
    lookupStr (d₁ ++ d₂) k = lookupStr d₂ k := by
  induction d₁ with
  | nil => rfl
  | cons p t ih =>
    rcases p with ⟨a, v⟩
    by_cases hk : a = k
    · simp [lookupStr, hk] at h
    · have ht : lookupStr t k = none := by simpa [lookupStr, hk] using h
      simpa [lookupStr, hk] using ih ht

theorem lookupStr_append_left {α : Type} {d₁ : List (String × α)}
    (d₂ : List (String × α)) {k : String} {v : α} (h : lookupStr d₁ k = some v) :
    lookupStr (d₁ ++ d₂) k = some v := by
  induction d₁ with
  | nil => simp [lookupStr] at h
  | cons p t ih =>
    rcases p with ⟨a, w⟩
    by_cases hk : a = k
    · have : w = v := by simpa [lookupStr, hk] using h
      simp [lookupStr, hk, this]
    · have ht : lookupStr t k = some v := by simpa [lookupStr, hk] using h
      simpa [lookupStr, hk] using ih ht

theorem lookupStr_eq_none_iff {α : Type} {d : List (String × α)} {k : String} :
    lookupStr d k = none ↔ k ∉ d.map Prod.fst := by
  induction d with
  | nil => simp [lookupStr]
  | cons p t ih =>
    rcases p with ⟨a, v⟩
    by_cases hk : a = k <;> simp [lookupStr, hk, ih, Ne.symm, eq_comm]

theorem mem_of_lookupStr {α : Type} {d : List (String × α)} {k : String} {v : α}
    (h : lookupStr d k = some v) : (k, v) ∈ d := by
  induction d with
  | nil => simp [lookupStr] at h
  | cons p t ih =>
    rcases p with ⟨a, w⟩
    by_cases hk : a = k
    · have : w = v := by simpa [lookupStr, hk] using h
      subst hk; subst this; exact List.mem_cons_self _ _
    · exact List.mem_cons_of_mem _ (ih (by simpa [lookupStr, hk] using h))

theorem value_mem_of_lookupStr {α : Type} {d : List (String × α)} {k : String}
    {v : α} (h : lookupStr d k = some v) : v ∈ d.map Prod.snd :=
  List.mem_map.mpr ⟨(k, v), mem_of_lookupStr h, rfl⟩

/-! ### The descriptor builder: construction errors (C6) -/

/-- C6: `make_tool` fails with a construction error if and only if the
capability lacks a usable execution entrypoint (the `apply` attribute is
absent, `None`, or not callable); for every capability with a usable
entrypoint construction succeeds, and the per-call behaviour (`run`) of the
capability never influences whether the builder succeeds. -/
theorem make_tool_error_iff_unusable_entrypoint (t : Tool) :
    ((make_tool t).isOk = true ↔ usableExecutionEntrypoint t = true) ∧
    (∀ r : Kwargs → Except String String,
      (make_tool { t with run := r }).isOk = (make_tool t).isOk) := by
  obtain ⟨name, attr, run⟩ := t
  refine ⟨?_, ?_⟩
  · cases attr with
    | none => exact Iff.rfl
    | some v =>
      cases v with
      | pynone => exact Iff.rfl
      | val c doc sig => cases c <;> exact Iff.rfl
  · intro r
    cases attr with
    | none => rfl
    | some v =>
      cases v with
      | pynone => rfl
      | val c doc sig => cases c <;> rfl

/-! ### The descriptor builder: name, description, schema (C7) -/

/-- C7: for a capability with a valid (callable) execution entrypoint, the
descriptor's name is taken verbatim from the capability's name accessor and
its description is the entrypoint's documentation string, or the empty
string when none is provided; the parameter schema is passed through from
the signature. -/
theorem make_tool_name_and_description (t : Tool) (doc : Option String)
    (sig : String) (hattr : t.applyAttr = some (ApplyVal.val true doc sig)) :
    ∃ d, make_tool t = Except.ok d ∧ d.name = t.name ∧
      d.description = doc.getD "" ∧ d.parameters = sig := by
  obtain ⟨name, attr, run⟩ := t
  have hattr' : attr = some (ApplyVal.val true doc sig) := hattr
  subst hattr'
  exact ⟨_, rfl, rfl, rfl, rfl⟩

/-- Witness for C7 at a concrete capability with a docstring. -/
theorem make_tool_name_and_description_witness :
    ∃ d, make_tool ⟨"read_file", some (ApplyVal.val true (some "Reads a file.") "sigA"),
        fun _ => Except.ok "contents"⟩ = Except.ok d ∧
      d.name = "read_file" ∧ d.description = (some "Reads a file.").getD "" ∧
      d.parameters = "sigA" :=
  make_tool_name_and_description
    ⟨"read_file", some (ApplyVal.val true (some "Reads a file.") "sigA"),
      fun _ => Except.ok "contents"⟩ (some "Reads a file.") "sigA" rfl

/-! ### The invocation thunk (C2) -/

/-- C2: the invocation thunk `execute_fn` installed by `make_tool` never
raises: on every named-argument mapping it returns a string, which is the
capability's success payload, or a description of the exception the
capability's execution raised. -/
theorem execute_fn_never_raises (t : Tool) (d : MCPTool)
    (h : make_tool t = Except.ok d) (kwargs : Kwargs) :
    ∃ s, d.fn kwargs = Except.ok s ∧
      (t.run kwargs = Except.ok s ∨
        ∃ e, t.run kwargs = Except.error e ∧ s = "Error executing tool: " ++ e) := by
  obtain ⟨name, attr, run⟩ := t
  cases attr with
  | none => exact Except.noConfusion h
  | some v =>
    cases v with
    | pynone => exact Except.noConfusion h
    | val c doc sig =>
      cases c with
      | false => exact Except.noConfusion h
      | true =>
        injection h with hd
        subst hd
        cases hr : run kwargs with
        | ok s =>
            exact ⟨s, by simp [Tool.apply_ex, hr], Or.inl hr⟩
        | error e =>
            exact ⟨"Error executing tool: " ++ e,
              by simp [Tool.apply_ex, hr], Or.inr ⟨e, hr, rfl⟩⟩

/-- A concrete capability whose execution always raises. -/
def errTool : Tool :=
  ⟨"err_tool", some (ApplyVal.val true none "sigE"), fun _ => Except.error "boom"⟩

/-- The descriptor `make_tool` builds from `errTool`. -/
def errToolDescr : MCPTool :=
  { fn := fun kwargs => errTool.apply_ex true true kwargs, name := "err_tool",
    description := "", parameters := "sigE", is_async := false }

/-- Witness for C2 at a capability whose execution raises. -/
theorem execute_fn_never_raises_witness :
    ∃ s, errToolDescr.fn [] = Except.ok s ∧
      (errTool.run [] = Except.ok s ∨
        ∃ e, errTool.run [] = Except.error e ∧ s = "Error executing tool: " ++ e) :=
  execute_fn_never_raises errTool errToolDescr rfl []

/-! ### The agent registry: evaluation lemmas -/

theorem get_create_miss (path : String) (st : MCPState)
    (h : lookupStr st.registry path = none) :
    _get_create_serena_agent path st =
      (st.nextId,
        { registry := st.registry ++ [(path, st.nextId)],
          nextId := st.nextId + 1,
          events := st.events ++ [Event.logCreate path, Event.backendStart st.nextId] }) := by
  simp [_get_create_serena_agent, h]

theorem get_create_hit (path : String) (st : MCPState) (a : Nat)
    (h : lookupStr st.registry path = some a) :
    _get_create_serena_agent path st =
      (a, { st with events := st.events ++ [Event.logReuse path] }) := by
  simp [_get_create_serena_agent, h]

theorem callRepeatedly_hit (path : String) (a : Nat) :
    ∀ (n : Nat) (st : MCPState), lookupStr st.registry path = some a →
    callRepeatedly path (n + 1) st =
      (a, { st with events := st.events ++ List.replicate (n + 1) (Event.logReuse path) }) := by
  intro n
  induction n with
  | zero =>
    intro st h
    simp [callRepeatedly, get_create_hit path st a h]
  | succ m ih =>
    intro st h
    have h' : lookupStr ({ st with events := st.events ++ [Event.logReuse path]} :
        MCPState).registry path = some a := h
    simp only [callRepeatedly, get_create_hit path st a h]
    rw [ih _ h']
    simp [List.replicate_succ, List.replicate_succ', MCPState.mk.injEq,
      List.append_assoc]

/-- C1: for an identifier not yet in the registry, one or more sequential
calls of the registry lookup construct exactly one agent: every call returns
the same (reference-identical) handle, the identifier is inserted once
bound to it, the allocation counter advances once, and the side effects are
one creation log plus one backend start followed only by reuse logs — no
second construction, no second backend start. -/
theorem registry_at_most_one_agent (path : String) (st : MCPState) (n : Nat)
    (hmiss : lookupStr st.registry path = none) :
    (callRepeatedly path (n + 1) st).1 = st.nextId ∧
    (callRepeatedly path (n + 1) st).2.registry = st.registry ++ [(path, st.nextId)] ∧
    (callRepeatedly path (n + 1) st).2.nextId = st.nextId + 1 ∧
    (callRepeatedly path (n + 1) st).2.events =
      st.events ++ [Event.logCreate path, Event.backendStart st.nextId]
        ++ List.replicate n (Event.logReuse path) := by
  cases n with
  | zero =>
    simp [callRepeatedly, get_create_miss path st hmiss]
  | succ m =>
    have hst' : lookupStr
        (({ registry := st.registry ++ [(path, st.nextId)],
            nextId := st.nextId + 1,
            events := st.events ++ [Event.logCreate path, Event.backendStart st.nextId] } :
          MCPState)).registry path = some st.nextId := by
      have : lookupStr ([(path, st.nextId)] : List (String × Nat)) path = some st.nextId := by
        simp [lookupStr]
      simpa using lookupStr_append_of_none _ hmiss |>.trans this
    simp only [callRepeatedly, get_create_miss path st hmiss]
    rw [callRepeatedly_hit path st.nextId m _ hst']
    simp [List.append_assoc]

/-- Witness for C1: three calls on the empty registry for one path. -/
theorem registry_at_most_one_agent_witness :
    (callRepeatedly "proj.yml" 3 initialState).1 = initialState.nextId ∧
    (callRepeatedly "proj.yml" 3 initialState).2.registry =
      initialState.registry ++ [("proj.yml", initialState.nextId)] ∧
    (callRepeatedly "proj.yml" 3 initialState).2.nextId = initialState.nextId + 1 ∧
    (callRepeatedly "proj.yml" 3 initialState).2.events =
      initialState.events ++
        [Event.logCreate "proj.yml", Event.backendStart initialState.nextId]
        ++ List.replicate 2 (Event.logReuse "proj.yml") :=
  registry_at_most_one_agent "proj.yml" initialState 2 rfl

/-! ### The well-formedness invariant -/

theorem WF_initialState : WF initialState := by
  refine ⟨by simp [initialState], by simp [initialState], ?_, ?_⟩
  · intro p a h
    simp [initialState] at h
  · intro a
    simp [initialState]

theorem nextId_not_mem_values {st : MCPState}
    (hb : ∀ p a, (p, a) ∈ st.registry → a < st.nextId) :
    st.nextId ∉ st.registry.map Prod.snd := by
  intro hmem
  obtain ⟨⟨p, a⟩, hpa, ha⟩ := List.mem_map.mp hmem
  have := hb p a hpa
  simp only at ha
  omega

theorem WF_get (path : String) (st : MCPState) (h : WF st) :
    WF (_get_create_serena_agent path st).2 := by
  obtain ⟨hk, hv, hb, hc⟩ := h
  cases hl : lookupStr st.registry path with
  | some a =>
    rw [get_create_hit path st a hl]
    refine ⟨hk, hv, hb, ?_⟩
    intro b
    simpa [List.count_append] using hc b
  | none =>
    rw [get_create_miss path st hl]
    have hpath : path ∉ st.registry.map Prod.fst := lookupStr_eq_none_iff.mp hl
    have hfresh : st.nextId ∉ st.registry.map Prod.snd := nextId_not_mem_values hb
    refine ⟨?_, ?_, ?_, ?_⟩
    · have hnp : ∀ x : Nat, (path, x) ∉ st.registry := fun x hx =>
        hpath (List.mem_map.mpr ⟨(path, x), hx, rfl⟩)
      simpa [List.nodup_append] using ⟨hk, hnp⟩
    · have hnv : ∀ x : String, (x, st.nextId) ∉ st.registry := fun x hx =>
        hfresh (List.mem_map.mpr ⟨(x, st.nextId), hx, rfl⟩)
      simpa [List.nodup_append] using ⟨hv, hnv⟩
    · intro p a hmem
      rcases List.mem_append.mp hmem with hmem | hmem
      · exact Nat.lt_succ_of_lt (hb p a hmem)
      · simp at hmem
        simp [hmem.2]
    · intro b
      by_cases hbn : b = st.nextId
      · subst hbn
        have h0 : st.events.count (Event.backendStart st.nextId) = 0 := by
          simpa [hfresh] using hc st.nextId
        simp [List.count_append, h0]
      · have hcb := hc b
        have hnb : st.nextId ≠ b := fun hh => hbn (Eq.symm hh)
        have hzero : List.count (Event.backendStart b)
            [Event.logCreate path, Event.backendStart st.nextId] = 0 := by
          simp [List.count_cons, hnb]
        have hmem : (b ∈ (st.registry ++ [(path, st.nextId)]).map Prod.snd) ↔
            b ∈ st.registry.map Prod.snd := by
          simp [hbn]
        rw [List.count_append, hcb, hzero]
        by_cases hbm : b ∈ st.registry.map Prod.snd
        · rw [if_pos hbm, if_pos (hmem.mpr hbm)]
        · rw [if_neg hbm, if_neg (fun hh => hbm (hmem.mp hh))]

theorem WF_registerAll (paths : List String) (st : MCPState) (h : WF st) :
    WF (registerAll paths st) := by
  induction paths generalizing st with
  | nil => exact h
  | cons p ps ih =>
    have : registerAll (p :: ps) st = registerAll ps (_get_create_serena_agent p st).2 := rfl
    rw [this]
    exact ih _ (WF_get p st h)

/-! ### Distinct identifiers yield distinct agents (C9) -/

theorem lookupStr_inj_ne {d : List (String × Nat)}
    (hk : (d.map Prod.fst).Nodup) (hv : (d.map Prod.snd).Nodup)
    {p q : String} {x y : Nat}
    (hp : lookupStr d p = some x) (hq : lookupStr d q = some y) (hne : p ≠ q) :
    x ≠ y := by
  induction d with
  | nil => simp [lookupStr] at hp
  | cons hd t ih =>
    rcases hd with ⟨k, w⟩
    simp only [List.map_cons, List.nodup_cons] at hk hv
    by_cases hkp : k = p
    · have hx : w = x := by simpa [lookupStr, hkp] using hp
      have hkq : ¬ k = q := fun hh => hne (hkp ▸ hh)
      have hy : y ∈ t.map Prod.snd :=
        value_mem_of_lookupStr (by simpa [lookupStr, hkq] using hq)
      intro hxy
      exact hv.1 (by simpa [hx, hxy] using hy)
    · by_cases hkq : k = q
      · have hy : w = y := by simpa [lookupStr, hkq] using hq
        have hx : x ∈ t.map Prod.snd :=
          value_mem_of_lookupStr (by simpa [lookupStr, hkp] using hp)
        intro hxy
        exact hv.1 (by simpa [hy, ← hxy] using hx)
      · exact ih hk.2 hv.2 (by simpa [lookupStr, hkp] using hp)
          (by simpa [lookupStr, hkq] using hq)

/-- C9: two registry lookups in sequence with distinct configuration
identifiers yield distinct (not reference-identical) agent handles, and
each handle's backend was started exactly once over the whole history. -/
theorem distinct_configs_distinct_agents (p q : String) (st : MCPState)
    (hWF : WF st) (hpq : p ≠ q) :
    (_get_create_serena_agent p st).1 ≠
      (_get_create_serena_agent q (_get_create_serena_agent p st).2).1 ∧
    ((_get_create_serena_agent q (_get_create_serena_agent p st).2).2.events.count
      (Event.backendStart (_get_create_serena_agent p st).1)) = 1 ∧
    ((_get_create_serena_agent q (_get_create_serena_agent p st).2).2.events.count
      (Event.backendStart
        (_get_create_serena_agent q (_get_create_serena_agent p st).2).1)) = 1 := by
  obtain ⟨hk, hv, hb, hc⟩ := hWF
  have hlt : ∀ x, x ∈ st.registry.map Prod.snd → x < st.nextId := by
    intro x hx
    obtain ⟨⟨pp, aa⟩, hmem, haa⟩ := List.mem_map.mp hx
    have := hb pp aa hmem
    simp only at haa
    omega
  have hfresh : st.nextId ∉ st.registry.map Prod.snd := nextId_not_mem_values hb
  have hc0 : st.events.count (Event.backendStart st.nextId) = 0 := by
    simpa [hfresh] using hc st.nextId
  cases hl₁ : lookupStr st.registry p with
  | some a =>
    have ha_mem : a ∈ st.registry.map Prod.snd := value_mem_of_lookupStr hl₁
    have hc₁ : st.events.count (Event.backendStart a) = 1 := by
      simpa [ha_mem] using hc a
    have ha_lt : a < st.nextId := hlt a ha_mem
    simp only [get_create_hit p st a hl₁]
    cases hl₂ : lookupStr st.registry q with
    | some b =>
      have hb_mem : b ∈ st.registry.map Prod.snd := value_mem_of_lookupStr hl₂
      have hc₂ : st.events.count (Event.backendStart b) = 1 := by
        simpa [hb_mem] using hc b
      simp only [get_create_hit q
        { st with events := st.events ++ [Event.logReuse p] } b hl₂]
      exact ⟨lookupStr_inj_ne hk hv hl₁ hl₂ hpq,
        by simp [List.count_append, hc₁], by simp [List.count_append, hc₂]⟩
    | none =>
      simp only [get_create_miss q
        { st with events := st.events ++ [Event.logReuse p] } hl₂]
      refine ⟨Nat.ne_of_lt ha_lt, ?_, ?_⟩
      · simp [List.count_append, hc₁, List.count_cons, Nat.ne_of_lt ha_lt]
      · simp [List.count_append, hc0]
  | none =>
    simp only [get_create_miss p st hl₁]
    cases hl₀ : lookupStr st.registry q with
    | some b =>
      have hl₂ : lookupStr (st.registry ++ [(p, st.nextId)]) q = some b :=
        lookupStr_append_left _ hl₀
      have hb_mem : b ∈ st.registry.map Prod.snd := value_mem_of_lookupStr hl₀
      have hb_lt : b < st.nextId := hlt b hb_mem
      have hc₂ : st.events.count (Event.backendStart b) = 1 := by
        simpa [hb_mem] using hc b
      simp only [get_create_hit q
        { registry := st.registry ++ [(p, st.nextId)], nextId := st.nextId + 1,
          events := st.events ++ [Event.logCreate p, Event.backendStart st.nextId] }
        b hl₂]
      refine ⟨(Nat.ne_of_lt hb_lt).symm, ?_, ?_⟩
      · simp [List.count_append, hc0]
      · simp [List.count_append, hc₂, List.count_cons, Nat.ne_of_lt hb_lt]
    | none =>
      have hl₂ : lookupStr (st.registry ++ [(p, st.nextId)]) q = none := by
        rw [lookupStr_append_of_none _ hl₀]
        simp [lookupStr, hpq]
      simp only [get_create_miss q
        { registry := st.registry ++ [(p, st.nextId)], nextId := st.nextId + 1,
          events := st.events ++ [Event.logCreate p, Event.backendStart st.nextId] }
        hl₂]
      have hfresh' : st.nextId + 1 ∉ st.registry.map Prod.snd := by
        intro hmem
        have := hlt _ hmem
        omega
      have hc0' : st.events.count (Event.backendStart (st.nextId + 1)) = 0 := by
        simpa [hfresh'] using hc (st.nextId + 1)
      refine ⟨by omega, ?_, ?_⟩
      · simp [List.count_append, hc0, List.count_cons]
      · simp [List.count_append, hc0', List.count_cons]

/-- Witness for C9: two distinct project files on the empty registry. -/
theorem distinct_configs_distinct_agents_witness :
    (_get_create_serena_agent "a.yml" initialState).1 ≠
      (_get_create_serena_agent "b.yml"
        (_get_create_serena_agent "a.yml" initialState).2).1 ∧
    ((_get_create_serena_agent "b.yml"
        (_get_create_serena_agent "a.yml" initialState).2).2.events.count
      (Event.backendStart (_get_create_serena_agent "a.yml" initialState).1)) = 1 ∧
    ((_get_create_serena_agent "b.yml"
        (_get_create_serena_agent "a.yml" initialState).2).2.events.count
      (Event.backendStart
        (_get_create_serena_agent "b.yml"
          (_get_create_serena_agent "a.yml" initialState).2).1)) = 1 :=
  distinct_configs_distinct_agents "a.yml" "b.yml" initialState
    WF_initialState (by decide)

/-! ### The shutdown sweep (C10, C3, C4) -/

theorem stopLoop_frame (f : Nat → Option String) (as : List Nat) (st : MCPState) :
    (stopLoop f as st).1.registry = st.registry ∧
    (stopLoop f as st).1.nextId = st.nextId ∧
    ∃ l, (stopLoop f as st).1.events = st.events ++ l ∧
      ∀ e ∈ l, ∃ a, e = Event.backendStop a := by
  induction as generalizing st with
  | nil => exact ⟨rfl, rfl, [], by simp [stopLoop], by simp⟩
  | cons a rest ih =>
    cases hf : f a with
    | some e =>
      exact ⟨by simp [stopLoop, hf], by simp [stopLoop, hf], [],
        by simp [stopLoop, hf], by simp⟩
    | none =>
      obtain ⟨h1, h2, l, h3, h4⟩ :=
        ih { st with events := st.events ++ [Event.backendStop a] }
      refine ⟨by simp [stopLoop, hf, h1], by simp [stopLoop, hf, h2],
        Event.backendStop a :: l, ?_, ?_⟩
      · simp only [stopLoop, hf]
        rw [h3]
        simp
      · intro e he
        rcases List.mem_cons.mp he with rfl | he
        · exact ⟨a, rfl⟩
        · exact h4 e he

/-- C10: the shutdown sweep leaves the registry mapping itself untouched —
no entry is removed and no key rebound, so every configuration identifier
is still mapped to the same agent handle afterwards; the allocation counter
is unchanged, and the only effects the sweep adds are backend-stop calls. -/
theorem shutdown_preserves_registry (f : Nat → Option String) (st : MCPState) :
    (server_lifespan_shutdown f st).1.registry = st.registry ∧
    (server_lifespan_shutdown f st).1.nextId = st.nextId ∧
    (∀ p, lookupStr (server_lifespan_shutdown f st).1.registry p =
      lookupStr st.registry p) ∧
    ∃ l, (server_lifespan_shutdown f st).1.events = st.events ++ l ∧
      ∀ e ∈ l, ∃ a, e = Event.backendStop a := by
  obtain ⟨h1, h2, l, h3, h4⟩ := stopLoop_frame f (st.registry.map Prod.snd) st
  exact ⟨h1, h2, fun p => by rw [show (server_lifespan_shutdown f st).1.registry =
    st.registry from h1], l, h3, h4⟩

theorem stopLoop_events_of_success (f : Nat → Option String) :
    ∀ (as : List Nat) (st : MCPState), (∀ a ∈ as, f a = none) →
    stopLoop f as st =
      ({ st with events := st.events ++ as.map Event.backendStop }, none) := by
  intro as
  induction as with
  | nil =>
    intro st h
    simp [stopLoop]
  | cons a rest ih =>
    intro st h
    have hfa : f a = none := h a (List.mem_cons_self a rest)
    have hrest : ∀ b ∈ rest, f b = none := fun b hb => h b (List.mem_cons_of_mem _ hb)
    simp only [stopLoop, hfa]
    rw [ih _ hrest]
    simp [MCPState.mk.injEq, List.append_assoc]

/-- C3: the shutdown sweep iterates the registry as it is at shutdown time:
for any state reached by further registrations after the server began
serving, and provided every backend stops cleanly, the sweep raises nothing
and invokes `stop()` exactly once for every agent handle then present —
including handles registered after startup. -/
theorem shutdown_stops_each_registered_agent_once (f : Nat → Option String)
    (st0 : MCPState) (paths : List String) (hWF : WF st0)
    (hok : ∀ a ∈ (registerAll paths st0).registry.map Prod.snd, f a = none) :
    (server_lifespan_shutdown f (registerAll paths st0)).2 = none ∧
    ∀ a ∈ (registerAll paths st0).registry.map Prod.snd,
      (((server_lifespan_shutdown f (registerAll paths st0)).1.events.drop
          (registerAll paths st0).events.length).count (Event.backendStop a)) = 1 := by
  obtain ⟨-, hv, -, -⟩ := WF_registerAll paths st0 hWF
  have heq := stopLoop_events_of_success f
    ((registerAll paths st0).registry.map Prod.snd) (registerAll paths st0) hok
  have hinj : Function.Injective Event.backendStop := by
    intro x y hxy
    simpa using hxy
  constructor
  · show (stopLoop f ((registerAll paths st0).registry.map Prod.snd)
      (registerAll paths st0)).2 = none
    rw [heq]
  · intro a ha
    show ((stopLoop f ((registerAll paths st0).registry.map Prod.snd)
        (registerAll paths st0)).1.events.drop
        (registerAll paths st0).events.length).count (Event.backendStop a) = 1
    rw [heq]
    simp only [List.drop_left]
    rw [List.count_map_of_injective _ Event.backendStop hinj a]
    exact List.count_eq_one_of_mem hv ha

/-- Witness for C3: two agents registered after startup, all stops clean. -/
theorem shutdown_stops_each_registered_agent_once_witness :
    (server_lifespan_shutdown (fun _ => none)
      (registerAll ["a.yml", "b.yml"] initialState)).2 = none ∧
    (((server_lifespan_shutdown (fun _ => none)
        (registerAll ["a.yml", "b.yml"] initialState)).1.events.drop
        (registerAll ["a.yml", "b.yml"] initialState).events.length).count
      (Event.backendStop 0)) = 1 ∧
    (((server_lifespan_shutdown (fun _ => none)
        (registerAll ["a.yml", "b.yml"] initialState)).1.events.drop
        (registerAll ["a.yml", "b.yml"] initialState).events.length).count
      (Event.backendStop 1)) = 1 :=
  ⟨(shutdown_stops_each_registered_agent_once (fun _ => none) initialState
      ["a.yml", "b.yml"] WF_initialState (fun _ _ => rfl)).1,
   (shutdown_stops_each_registered_agent_once (fun _ => none) initialState
      ["a.yml", "b.yml"] WF_initialState (fun _ _ => rfl)).2 0 (by decide),
   (shutdown_stops_each_registered_agent_once (fun _ => none) initialState
      ["a.yml", "b.yml"] WF_initialState (fun _ _ => rfl)).2 1 (by decide)⟩

/-- A state with two registered agents, as left by resolving two projects. -/
def twoAgentState : MCPState :=
  ⟨[("a.yml", 0), ("b.yml", 1)], 2,
    [Event.logCreate "a.yml", Event.backendStart 0,
     Event.logCreate "b.yml", Event.backendStart 1]⟩

/-- Stop behaviour in which the first agent's backend raises on `stop()`. -/
def firstStopRaises : Nat → Option String :=
  fun a => if a = 0 then some "RuntimeError: stop failed" else none

/-- C4 (evaluation at the failing input): when the first agent's backend
`stop()` raises, the bare `for` loop of `server_lifespan` propagates the
exception and the second agent's backend `stop()` is never invoked — the
sweep is not fault-isolated per agent. -/
theorem shutdown_sweep_not_fault_isolated :
    (server_lifespan_shutdown firstStopRaises twoAgentState).2 =
      some "RuntimeError: stop failed" ∧
    ((server_lifespan_shutdown firstStopRaises twoAgentState).1.events.count
      (Event.backendStop 1)) = 0 := by
  exact ⟨rfl, rfl⟩

/-! ### The entry point: usage errors (C5) -/

/-- C5: with an external argument count different from one, the entry point
prints the usage message to the diagnostic stream and exits with status 1,
leaving the registry and the allocation counter untouched and starting no
backend — no agent is constructed and no server state is created. -/
theorem usage_error_exits_before_any_construction
    (agentTools : Nat → List Tool) (argv : List String) (st : MCPState)
    (h : argv.length ≠ 1) :
    create_mcp_server agentTools argv st =
      (PyOutcome.exit 1, { st with events := st.events ++ [Event.usagePrinted] }) ∧
    (create_mcp_server agentTools argv st).2.registry = st.registry ∧
    (create_mcp_server agentTools argv st).2.nextId = st.nextId ∧
    ∀ a, (create_mcp_server agentTools argv st).2.events.count (Event.backendStart a) =
      st.events.count (Event.backendStart a) := by
  match argv with
  | [] =>
    exact ⟨rfl, rfl, rfl, fun a => by
      simp [create_mcp_server, List.count_append]⟩
  | [x] => exact absurd rfl h
  | x :: y :: t =>
    exact ⟨rfl, rfl, rfl, fun a => by
      simp [create_mcp_server, List.count_append]⟩

/-- Witness for C5: no arguments at all. -/
theorem usage_error_exits_before_any_construction_witness :
    create_mcp_server (fun _ => []) [] initialState =
      (PyOutcome.exit 1,
        { initialState with events := initialState.events ++ [Event.usagePrinted] }) ∧
    (create_mcp_server (fun _ => []) [] initialState).2.registry =
      initialState.registry ∧
    (create_mcp_server (fun _ => []) [] initialState).2.nextId =
      initialState.nextId ∧
    (create_mcp_server (fun _ => []) [] initialState).2.events.count
      (Event.backendStart 0) =
      initialState.events.count (Event.backendStart 0) :=
  ⟨(usage_error_exits_before_any_construction (fun _ => []) [] initialState
      (by decide)).1,
   (usage_error_exits_before_any_construction (fun _ => []) [] initialState
      (by decide)).2.1,
   (usage_error_exits_before_any_construction (fun _ => []) [] initialState
      (by decide)).2.2.1,
   (usage_error_exits_before_any_construction (fun _ => []) [] initialState
      (by decide)).2.2.2 0⟩

/-! ### The procedure table: last write wins (C8) -/

theorem lookupStr_mapReplace {α : Type} (d : List (String × α)) (k : String)
    (v : α) (h : (lookupStr d k).isSome) :
    lookupStr (d.map (fun p => if p.1 = k then (k, v) else p)) k = some v := by
  induction d with
  | nil => simp [lookupStr] at h
  | cons p t ih =>
    rcases p with ⟨a, w⟩
    simp only [List.map_cons]
    by_cases hk : a = k
    · subst hk
      rw [show (if ((a, w) : String × α).1 = a then (a, v) else (a, w)) = (a, v)
        from if_pos rfl]
      simp [lookupStr]
    · rw [show (if ((a, w) : String × α).1 = k then (k, v) else (a, w)) = (a, w)
        from if_neg hk]
      have h' : (lookupStr t k).isSome := by simpa [lookupStr, hk] using h
      simpa [lookupStr, hk] using ih h'

theorem lookupStr_mapReplace_ne {α : Type} (d : List (String × α))
    (k k' : String) (v : α) (hne : k' ≠ k) :
    lookupStr (d.map (fun p => if p.1 = k then (k, v) else p)) k' =
      lookupStr d k' := by
  induction d with
  | nil => rfl
  | cons p t ih =>
    rcases p with ⟨a, w⟩
    simp only [List.map_cons]
    by_cases hk : a = k
    · subst hk
      rw [show (if ((a, w) : String × α).1 = a then (a, v) else (a, w)) = (a, v)
        from if_pos rfl]
      simp [lookupStr, Ne.symm hne, ih]
    · rw [show (if ((a, w) : String × α).1 = k then (k, v) else (a, w)) = (a, w)
        from if_neg hk]
      simp [lookupStr, ih]

theorem dictInsert_lookup_self {α : Type} (d : List (String × α)) (k : String)
    (v : α) : lookupStr (dictInsert d k v) k = some v := by
  unfold dictInsert
  split
  · rename_i h
    exact lookupStr_mapReplace d k v h
  · rename_i h
    have hl : lookupStr d k = none := by
      cases hl : lookupStr d k with
      | none => rfl
      | some w => rw [hl] at h; simp at h
    rw [lookupStr_append_of_none _ hl]
    simp [lookupStr]

theorem dictInsert_lookup_ne {α : Type} (d : List (String × α)) (k k' : String)
    (v : α) (hne : k' ≠ k) :
    lookupStr (dictInsert d k v) k' = lookupStr d k' := by
  unfold dictInsert
  split
  · exact lookupStr_mapReplace_ne d k k' v hne
  · cases hl : lookupStr d k' with
    | some w => exact lookupStr_append_left _ hl
    | none =>
      rw [lookupStr_append_of_none _ hl]
      simp [lookupStr, Ne.symm hne]

theorem map_fst_mapReplace {α : Type} (d : List (String × α)) (k : String)
    (v : α) :
    d.map (Prod.fst ∘ fun p => if p.1 = k then (k, v) else p) =
      d.map Prod.fst := by
  induction d with
  | nil => rfl
  | cons p t ihd =>
    simp only [List.map_cons, ihd]
    have hhd : (Prod.fst ∘ fun p : String × α =>
        if p.1 = k then (k, v) else p) p = p.1 := by
      by_cases hp : p.1 = k
      · rw [Function.comp_apply, if_pos hp]
        exact hp.symm
      · rw [Function.comp_apply, if_neg hp]
    rw [hhd]

theorem dictInsert_keys_nodup {α : Type} (d : List (String × α)) (k : String)
    (v : α) (h : (d.map Prod.fst).Nodup) :
    ((dictInsert d k v).map Prod.fst).Nodup := by
  unfold dictInsert
  split
  · rw [List.map_map, map_fst_mapReplace]
    exact h
  · rename_i hns
    have hl : lookupStr d k = none := by
      cases hl : lookupStr d k with
      | none => rfl
      | some w => rw [hl] at hns; simp at hns
    have hnotin : k ∉ d.map Prod.fst := lookupStr_eq_none_iff.mp hl
    have hnp : ∀ x : α, (k, x) ∉ d := fun x hx =>
      hnotin (List.mem_map.mpr ⟨(k, x), hx, rfl⟩)
    simpa [List.nodup_append] using ⟨h, hnp⟩

theorem bindTools_keys_nodup (ts : List Tool) :
    ∀ (tbl tbl' : List (String × MCPTool)),
    bindTools ts tbl = Except.ok tbl' → (tbl.map Prod.fst).Nodup →
    (tbl'.map Prod.fst).Nodup := by
  induction ts with
  | nil =>
    intro tbl tbl' hbind hnd
    simp only [bindTools, Except.ok.injEq] at hbind
    subst hbind
    exact hnd
  | cons t rest ih =>
    intro tbl tbl' hbind hnd
    cases hmk : make_tool t with
    | error e =>
      rw [bindTools, hmk] at hbind
      exact Except.noConfusion hbind
    | ok mt =>
      rw [bindTools, hmk] at hbind
      exact ih _ _ hbind (dictInsert_keys_nodup tbl t.name mt hnd)

theorem bindTools_lookup (ts : List Tool) :
    ∀ (tbl tbl' : List (String × MCPTool)),
    bindTools ts tbl = Except.ok tbl' →
    ∀ n, lookupStr tbl' n =
      match ts.reverse.find? (fun t => t.name == n) with
      | some t => (make_tool t).toOption
      | none => lookupStr tbl n := by
  induction ts with
  | nil =>
    intro tbl tbl' hbind n
    simp only [bindTools, Except.ok.injEq] at hbind
    subst hbind
    rfl
  | cons t rest ih =>
    intro tbl tbl' hbind n
    cases hmk : make_tool t with
    | error e =>
      rw [bindTools, hmk] at hbind
      exact Except.noConfusion hbind
    | ok mt =>
      rw [bindTools, hmk] at hbind
      rw [ih _ _ hbind n, List.reverse_cons, List.find?_append]
      cases hf : rest.reverse.find? (fun u => u.name == n) with
      | some u => simp [hf]
      | none =>
        by_cases hn : t.name = n
        · subst hn
          simp [hf, List.find?, hmk, dictInsert_lookup_self, Except.toOption]
        · have hbeq : (t.name == n) = false := by
            simpa using hn
          simp [hf, List.find?, hbeq, dictInsert_lookup_ne tbl t.name n mt
            (fun hh => hn (Eq.symm hh))]

/-- C8: binding the capabilities of the agent into the server's procedure
table yields unique keys, and a capability whose name was already bound
overwrites the prior descriptor: after the bind loop each name maps to the
descriptor built from the last capability bound under it. -/
theorem procedure_table_last_write_wins (ts : List Tool)
    (tbl' : List (String × MCPTool)) (hbind : bindTools ts [] = Except.ok tbl') :
    ((tbl'.map Prod.fst).Nodup) ∧
    ∀ n, lookupStr tbl' n =
      match ts.reverse.find? (fun t => t.name == n) with
      | some t => (make_tool t).toOption
      | none => none := by
  refine ⟨bindTools_keys_nodup ts [] tbl' hbind (by simp), ?_⟩
  intro n
  exact bindTools_lookup ts [] tbl' hbind n

/-- Two capabilities sharing the name "dup"; the second is bound last. -/
def dupA : Tool :=
  ⟨"dup", some (ApplyVal.val true (some "first") "sa"), fun _ => Except.ok "a"⟩

/-- See `dupA`. -/
def dupB : Tool :=
  ⟨"dup", some (ApplyVal.val true (some "second") "sb"), fun _ => Except.ok "b"⟩

/-- The table after binding `dupA` then `dupB`: one entry, `dupB`'s. -/
def dupTable : List (String × MCPTool) :=
  [("dup", { fn := fun kwargs => dupB.apply_ex true true kwargs, name := "dup",
             description := "second", parameters := "sb", is_async := false })]

/-- Witness for C8: binding two same-named capabilities in order leaves the
descriptor of the one bound last. -/
theorem procedure_table_last_write_wins_witness :
    ((dupTable.map Prod.fst).Nodup) ∧
    lookupStr dupTable "dup" =
      match [dupA, dupB].reverse.find? (fun t => t.name == "dup") with
      | some t => (make_tool t).toOption
      | none => none :=
  ⟨(procedure_table_last_write_wins [dupA, dupB] dupTable rfl).1,
   (procedure_table_last_write_wins [dupA, dupB] dupTable rfl).2 "dup"⟩

end Serena
